import Mathlib

/-!
# Verification of the git-client object store and pack/delta pipeline

Shallow embedding of `src/app/main.ts` (a minimal git client: content-addressed
object store, packfile decoder, ref-delta reconstructor, smart-HTTP ref
discovery).  Byte buffers are modelled as `List Nat` (each element a byte
value), JavaScript numbers as exact integers except where the source uses the
32-bit operators (`<<`), which are modelled with explicit two's-complement
wrap-around.  Filesystem and zlib are abstracted: the object store is an
association list from hash strings to uncompressed content, and
deflate/inflate appear as oracle parameters where a claim mentions them.
-/

namespace GitClient

/-- ASCII byte list of a string, as `Buffer.from(s)` yields for the pure-ASCII
strings this client builds. -/
def strBytes (s : String) : List Nat := s.data.map Char.toNat

/-- Byte list decoded back to a string (`buffer.toString()` for ASCII data). -/
def bytesToStr (l : List Nat) : String := ⟨l.map Char.ofNat⟩

/-- Little-endian decimal digits of `n`, fuel-driven so that it reduces in the
kernel; mirrors how `${n}` renders a nonnegative integer in decimal. -/
def decDigitsGo : Nat → Nat → List Nat
  | 0, _ => []
  | fuel+1, n => if n < 10 then [n] else n % 10 :: decDigitsGo fuel (n / 10)

/-- ASCII bytes of the decimal rendering `${n}`. -/
def decBytes (n : Nat) : List Nat :=
  ((decDigitsGo (n+1) n).reverse).map (fun d => 48 + d)

/-- Object kinds this client stores (`"blob" | "tree" | "commit"`). -/
inductive Kind | blob | tree | commit
deriving DecidableEq, Repr

/-- The literal kind token used on disk and in headers. -/
def kindName : Kind → String
  | .blob => "blob"
  | .tree => "tree"
  | .commit => "commit"

/-- `hashBuffer`'s content: `Buffer.from(s\x7b type \x7d s\x7b buffer.length \x7d\0)`
concatenated with the payload (main.ts lines 39-48). -/
def mkContent (type : String) (buffer : List Nat) : List Nat :=
  strBytes type ++ [32] ++ decBytes buffer.length ++ [0] ++ buffer

/-- Index of the first NUL byte, as the `while (readBuffer.at(nullIdx) !== 0)`
scan of main.ts lines 384-387 computes it; `none` when the scan would run past
the end (the source would then loop on `undefined` forever). -/
def findNull : List Nat → Option Nat
  | [] => none
  | b :: rest => if b = 0 then some 0 else (findNull rest).map (· + 1)

/-- `str.split(" ")[0]` on ASCII bytes: everything before the first space. -/
def takeUntilSpace : List Nat → List Nat
  | [] => []
  | b :: rest => if b = 32 then [] else b :: takeUntilSpace rest

/-- Caller-side parse of a stored object's decompressed bytes: locate the NUL,
read the kind token before the first space of the header, return the payload
after the NUL (main.ts lines 384-393, likewise the checkout reads at 463/482). -/
def parseObject (content : List Nat) : Option (String × List Nat) :=
  match findNull content with
  | none => none
  | some n => some (bytesToStr (takeUntilSpace (content.take n)), content.drop (n+1))

/-- `writeFileSync`'s on-disk bytes for an object: deflate of the
header-plus-payload content (main.ts lines 62-75 compress `hashBuffer`'s
content). The compressor is an oracle parameter. -/
def writeObjectBytes (deflate : List Nat → List Nat) (k : Kind) (p : List Nat) : List Nat :=
  deflate (mkContent (kindName k) p)

/-- `readFileSync` followed by the header split: inflate the stored bytes and
parse kind and payload (main.ts lines 26-37 with the caller-side split). -/
def readObjectBytes (inflate : List Nat → List Nat) (stored : List Nat) :
    Option (String × List Nat) :=
  parseObject (inflate stored)

/- ### SHA-1 (FIPS 180-4), modelling `crypto.createHash("sha1")`.
The hash routine itself lives in Node's crypto library, outside this
repository; it is embedded here as the standard published algorithm. -/

/-- 2^32, the word modulus. -/
def w32 : Nat := 4294967296

/-- Left-rotation of a 32-bit word by `k` (0 < k < 32). -/
def rotl32 (x k : Nat) : Nat := ((x <<< k) % w32) + ((x % w32) >>> (32 - k))

/-- The SHA-1 round function. -/
def sha1F (t b c d : Nat) : Nat :=
  if t < 20 then (b &&& c) ||| ((b ^^^ 4294967295) &&& d)
  else if t < 40 then b ^^^ c ^^^ d
  else if t < 60 then (b &&& c) ||| (b &&& d) ||| (c &&& d)
  else b ^^^ c ^^^ d

/-- The SHA-1 round constants. -/
def sha1K (t : Nat) : Nat :=
  if t < 20 then 1518500249
  else if t < 40 then 1859775393
  else if t < 60 then 2400959708
  else 3395469782

/-- Group bytes into big-endian 32-bit words. -/
def bytesToWords : List Nat → List Nat
  | a :: b :: c :: d :: rest => (((a * 256 + b) * 256 + c) * 256 + d) :: bytesToWords rest
  | _ => []

/-- Message-schedule extension: prepend `n` more words to the reversed word
list, each the 1-rotation of words 3, 8, 14 and 16 back. -/
def extendWords : Nat → List Nat → List Nat
  | 0, acc => acc
  | n+1, acc =>
    extendWords n
      (rotl32 (((acc.getD 2 0) ^^^ (acc.getD 7 0)) ^^^ ((acc.getD 13 0) ^^^ (acc.getD 15 0))) 1
        :: acc)

/-- The 80 compression rounds over the schedule words. -/
def sha1Rounds : Nat → List Nat → Nat × Nat × Nat × Nat × Nat → Nat × Nat × Nat × Nat × Nat
  | _, [], st => st
  | t, w :: ws, (a, b, c, d, e) =>
    sha1Rounds (t+1) ws
      ((rotl32 a 5 + sha1F t b c d + e + sha1K t + w) % w32, a, rotl32 b 30, c, d)

/-- Process one 64-byte block. -/
def sha1Block (block : List Nat) (h : Nat × Nat × Nat × Nat × Nat) :
    Nat × Nat × Nat × Nat × Nat :=
  let ws := (extendWords 64 (bytesToWords block).reverse).reverse
  match h, sha1Rounds 0 ws h with
  | (h0, h1, h2, h3, h4), (a, b, c, d, e) =>
    ((h0 + a) % w32, (h1 + b) % w32, (h2 + c) % w32, (h3 + d) % w32, (h4 + e) % w32)

/-- Fold over the 64-byte blocks (fuel-driven for kernel reduction). -/
def sha1Go : Nat → List Nat → Nat × Nat × Nat × Nat × Nat → Nat × Nat × Nat × Nat × Nat
  | 0, _, h => h
  | fuel+1, msg, h =>
    match msg with
    | [] => h
    | _ => sha1Go fuel (msg.drop 64) (sha1Block (msg.take 64) h)

/-- `k` big-endian bytes of `n`. -/
def beBytesGo : Nat → Nat → List Nat → List Nat
  | 0, _, acc => acc
  | k+1, n, acc => beBytesGo k (n / 256) (n % 256 :: acc)

/-- `k`-byte big-endian encoding of `n`. -/
def beBytes (k n : Nat) : List Nat := beBytesGo k n []

/-- SHA-1 padding: 0x80, zeros to 56 mod 64, and the bit length in 8 bytes. -/
def sha1Pad (msg : List Nat) : List Nat :=
  msg ++ 128 :: (List.replicate ((64 - ((msg.length + 9) % 64)) % 64) 0
    ++ beBytes 8 (msg.length * 8))

/-- The 20-byte SHA-1 digest of a byte list. -/
def sha1Bytes (msg : List Nat) : List Nat :=
  let p := sha1Pad msg
  match sha1Go p.length p (1732584193, 4023233417, 2562383102, 271733878, 3285377520) with
  | (h0, h1, h2, h3, h4) =>
    beBytes 4 h0 ++ beBytes 4 h1 ++ beBytes 4 h2 ++ beBytes 4 h3 ++ beBytes 4 h4

/-- Lower-case hex digit. -/
def hexDigit (n : Nat) : Char := if n < 10 then Char.ofNat (48 + n) else Char.ofNat (87 + n)

/-- Lower-case hex string of a byte list (`digest("hex")`, `toString("hex")`). -/
def bytesToHex (l : List Nat) : String :=
  ⟨(l.map (fun b => [hexDigit (b / 16), hexDigit (b % 16)])).flatten⟩

/-- Hex SHA-1 digest of a byte list. -/
def sha1Hex (msg : List Nat) : String := bytesToHex (sha1Bytes msg)

/-- `hashBuffer` (main.ts lines 39-48): the pair of the hex hash of
`"<type> <length>\0" ++ buffer` and those content bytes themselves. -/
def hashBuffer (buffer : List Nat) (type : String) : String × List Nat :=
  (sha1Hex (mkContent type buffer), mkContent type buffer)

/-- The sharded object path `writeFileSync` writes to and `readFileSync` reads
from (main.ts lines 26-37 and 62-75). -/
def objectPath (dir : Option String) (hash : String) : String :=
  (match dir with | some d => d ++ "/" | none => "")
    ++ ".git/objects/" ++ hash.take 2 ++ "/" ++ hash.drop 2

/- ### Variable-length integer readers -/

/-- JavaScript `ToInt32`: reduce an integer into `[-2^31, 2^31)`. -/
def toInt32 (x : Int) : Int := (x + 2147483648) % 4294967296 - 2147483648

/-- JavaScript `a << b` on integers: operands to 32 bits, shift count masked
to 5 bits, result signed 32-bit. -/
def jsShl (a b : Int) : Int :=
  toInt32 (toInt32 a * 2 ^ (((b % 4294967296).toNat) % 32))

/-- `byteArray[i]` as the 32-bit operators see it: an out-of-range read
yields `undefined`, which `&`, `>>` and `<<` coerce to 0. -/
def jsByte (bytes : List Nat) (i : Nat) : Nat := bytes.getD i 0

/-- The continuation loop of the pack-entry header size decode (main.ts lines
288-298): `idx++`, `move += 7`, then
`size = size + ((byteArray[idx] & 127) << move)` with JavaScript's 32-bit
`<<`, ending when bit 7 of the byte just read is clear.  Fuel-driven: one
fuel per iteration, and any fuel above `bytes.length` is enough because an
out-of-range read coerces to 0 and ends the loop. -/
def packSizeGo (bytes : List Nat) : Nat → Nat → Int → Int → Int × Nat
  | 0, idx, _, size => (size, idx)
  | fuel+1, idx, move, size =>
    let idx' := idx + 1
    let move' := move + 7
    let b := jsByte bytes idx'
    let size' := size + jsShl ((b &&& 127 : Nat) : Int) move'
    if (b >>> 7) &&& 1 = 0 then (size', idx')
    else packSizeGo bytes fuel idx' move' size'

/-- Pack entry header decode (main.ts lines 282-299): type bits `(b>>4)&7`,
size from the low 4 bits of the first byte plus the continuation loop, and
the cursor advanced past every byte consumed. -/
def packEntryHeader (bytes : List Nat) (idx : Nat) : Nat × Int × Nat :=
  let b0 := jsByte bytes idx
  let type := (b0 >>> 4) &&& 7
  if (b0 >>> 7) &&& 1 = 1 then
    let r := packSizeGo bytes (bytes.length + 1) idx (-3) ((b0 &&& 15 : Nat) : Int)
    (type, r.1, r.2 + 1)
  else (type, ((b0 &&& 15 : Nat) : Int), idx + 1)

/-- The delta length readers (main.ts lines 353-362 and 367-376):
`value += (data[dIdx] & 127) * Math.pow(128, lIdx)`, stopping at the first
byte whose bit 7 is clear; the caller then does `dIdx++`.  `Math.pow(128, n)`
and the products are exact IEEE doubles throughout the value range the
theorems below cover, so the accumulation is modelled with exact naturals. -/
def deltaVarintGo (data : List Nat) : Nat → Nat → Nat → Nat → Nat × Nat
  | 0, dIdx, _, value => (value, dIdx)
  | fuel+1, dIdx, lIdx, value =>
    let b := jsByte data dIdx
    let value' := value + (b &&& 127) * 128 ^ lIdx
    if (b >>> 7) &&& 1 = 0 then (value', dIdx)
    else deltaVarintGo data fuel (dIdx + 1) (lIdx + 1) value'

/-- A delta length-avarint read starting at `dIdx`: the decoded value and the
cursor after the final byte (the `dIdx++` of main.ts lines 363/377). -/
def deltaVarint (data : List Nat) (dIdx : Nat) : Nat × Nat :=
  let r := deltaVarintGo data (data.length + 1) dIdx 0 0
  (r.1, r.2 + 1)

/- ### Spec-side descriptions of the two schemes (for the refinement
theorems; written from the spec's words, not from the source) -/

/-- Per the spec, scheme 1: the n-th continuation byte (0-indexed here)
contributes its low 7 bits at shift `4 + 7*n`. -/
def specPackContrib : List Nat → Nat → Nat
  | [], _ => 0
  | c :: cs, n => (c % 128) * 2 ^ (4 + 7 * n) + specPackContrib cs (n + 1)

/-- Per the spec, scheme 1 value: low 4 bits of the first byte plus the
continuation contributions. -/
def specPackSize (b0 : Nat) (cont : List Nat) : Nat := b0 % 16 + specPackContrib cont 0

/-- Per the spec, scheme 2: the n-th continuation byte contributes its low
7 bits at shift `7*n` (`n ≥ 1`). -/
def specDeltaContrib : List Nat → Nat → Nat
  | [], _ => 0
  | c :: cs, n => (c % 128) * 2 ^ (7 * n) + specDeltaContrib cs (n + 1)

/-- Per the spec, scheme 2 value: low 7 bits of the first byte plus the
continuation contributions. -/
def specDeltaValue (b0 : Nat) (cont : List Nat) : Nat := b0 % 128 + specDeltaContrib cont 1

/- ### Ref-delta reconstruction -/

/-- The field loop of a copy instruction (main.ts lines 405-416):
`for (let i = 0; i < 7; i++)`, modelled as iteration over `[0,...,6]`.  A set
bit `i` consumes the next stream byte into the offset (`i < 4`, weight
`256^i`) or the size (`i ≥ 4`, weight `256^(i-4)`); an unset bit consumes
nothing.  `none` when a selected byte is out of range: the source then adds
`undefined`, poisoning offset or size to NaN, and `Buffer.copyBytesFrom`
throws on it. -/
def copyFieldsGo (data : List Nat) (byte0 : Nat) :
    List Nat → Nat → Nat → Nat → Option (Nat × Nat × Nat)
  | [], dIdx, offset, size => some (offset, size, dIdx)
  | i :: is, dIdx, offset, size =>
    if (byte0 >>> i) &&& 1 = 0 then copyFieldsGo data byte0 is dIdx offset size
    else if h : dIdx < data.length then
      let b := data.get ⟨dIdx, h⟩
      if i < 4 then copyFieldsGo data byte0 is (dIdx + 1) (offset + b * 256 ^ i) size
      else copyFieldsGo data byte0 is (dIdx + 1) offset (size + b * 256 ^ (i - 4))
    else none

/-- The instruction loop of the ref-delta reconstructor (main.ts lines
397-430), fuel-driven (each iteration advances `dIdx` by at least one, so
any fuel above `data.length` is enough).  A copy appends
`(base.drop offset).take size` — exactly `Buffer.copyBytesFrom`'s clamping
semantics — and an insert appends the next `byte0` stream bytes, clamped at
the stream end by `slice`. -/
def deltaInstrsGo (data base : List Nat) : Nat → Nat → List Nat → Option (List Nat)
  | 0, _, _ => none
  | fuel+1, dIdx, buffer =>
    if dIdx < data.length then
      let byte0 := jsByte data dIdx
      if (byte0 >>> 7) &&& 1 = 1 then
        match copyFieldsGo data byte0 [0, 1, 2, 3, 4, 5, 6] (dIdx + 1) 0 0 with
        | none => none
        | some (offset, size, dIdx') =>
          deltaInstrsGo data base fuel dIdx' (buffer ++ (base.drop offset).take size)
      else
        deltaInstrsGo data base fuel (dIdx + 1 + byte0)
          (buffer ++ (data.drop (dIdx + 1)).take byte0)
    else some buffer

/-- The two length prefixes of a delta payload (main.ts lines 350-377):
`sourceLength`, `targetLength`, and the cursor after both. -/
def refDeltaLengths (data : List Nat) : Nat × Nat × Nat :=
  let s := deltaVarint data 0
  let t := deltaVarint data s.2
  (s.1, t.1, t.2)

/-- Full ref-delta payload application against a header-stripped base
payload: read the two length prefixes (the source only logs them) and run
the instruction loop (main.ts case 7, lines 350-430). -/
def refDeltaApply (decompressedData basePayload : List Nat) : Option (List Nat) :=
  let r := refDeltaLengths decompressedData
  deltaInstrsGo decompressedData basePayload (decompressedData.length + 1) r.2.2 []

/- ### Pack decode and the object store -/

/-- The object store as the clone writes it: hash string to uncompressed
content bytes.  Compression is a bijective layer elided here —
`writeFileSync` deflates exactly the content that `readFileSync` inflates
back — and appears explicitly only where a claim mentions it. -/
abbrev Store := List (String × List Nat)

/-- `readFileSync` by hash (main.ts lines 26-37): `none` models the thrown
ENOENT when no object with that hash was written. -/
def storeRead (s : Store) (h : String) : Option (List Nat) :=
  (s.find? (fun e => e.1 = h)).map (fun e => e.2)

/-- `writeFileSync hash content` (main.ts lines 62-75). -/
def storeWrite (s : Store) (h : String) (c : List Nat) : Store := (h, c) :: s

/-- Pack case 7 (main.ts lines 348-436): read the base object by hash, scan
to the header NUL, take the token before the header's space as the kind,
strip the header, apply the delta, and store the result under that kind.
`none` models the source's failure modes: missing base (fs throws), headerless
base (the NUL scan never terminates), or a poisoned copy instruction. -/
def refDeltaEntry (store : Store) (reference : String)
    (decompressedData : List Nat) : Option Store :=
  match storeRead store reference with
  | none => none
  | some readBuffer =>
    match findNull readBuffer with
    | none => none
    | some nullIdx =>
      let objectType := bytesToStr (takeUntilSpace (readBuffer.take nullIdx))
      match refDeltaApply decompressedData (readBuffer.drop (nullIdx + 1)) with
      | none => none
      | some buffer =>
        let hc := hashBuffer buffer objectType
        some (storeWrite store hc.1 hc.2)

/-- One pack entry (main.ts lines 282-440): header decode, the 20-byte base
hash when the type is 7, one `zlib.inflateSync(byteArray.slice(idx))` call
through the `inflate` oracle (which reports the decompressed bytes and the
compressed bytes consumed, or `none` when zlib would throw), the dispatch on
the type — 1/2/3 store under commit/tree/blob, 4 and 6 fall through their
empty cases, 7 runs the ref-delta path — and the cursor advanced by
`engine.bytesRead`.  Returns the updated store and cursor. -/
def packEntryStep (inflate : List Nat → Option (List Nat × Nat))
    (bytes : List Nat) (idx : Nat) (store : Store) : Option (Store × Nat) :=
  let hd := packEntryHeader bytes idx
  let type := hd.1
  let idx1 := hd.2.2
  let reference := if type = 7 then bytesToHex ((bytes.drop idx1).take 20) else ""
  let idx2 := if type = 7 then idx1 + 20 else idx1
  match inflate (bytes.drop idx2) with
  | none => none
  | some (decompressedData, bytesRead) =>
    if type = 1 then
      let hc := hashBuffer decompressedData "commit"
      some (storeWrite store hc.1 hc.2, idx2 + bytesRead)
    else if type = 2 then
      let hc := hashBuffer decompressedData "tree"
      some (storeWrite store hc.1 hc.2, idx2 + bytesRead)
    else if type = 3 then
      let hc := hashBuffer decompressedData "blob"
      some (storeWrite store hc.1 hc.2, idx2 + bytesRead)
    else if type = 7 then
      match refDeltaEntry store reference decompressedData with
      | none => none
      | some store' => some (store', idx2 + bytesRead)
    else some (store, idx2 + bytesRead)

/-- The entry loop `while (count < packCount)` (main.ts lines 278-441):
exactly `count` iterations of `packEntryStep`, threading cursor and store. -/
def packEntriesGo (inflate : List Nat → Option (List Nat × Nat)) (bytes : List Nat) :
    Nat → Nat → Store → Option Store
  | 0, _, store => some store
  | count+1, idx, store =>
    match packEntryStep inflate bytes idx store with
    | none => none
    | some (store', idx') => packEntriesGo inflate bytes count idx' store'

/-- The pack stream decode (main.ts lines 262-441): skip a leading
`"0008NAK\n"` if present; if the next 4 bytes are `"PACK"`, read the entry
count from the big-endian bytes at offsets 8-11 past the magic and move the
cursor 12 bytes in; otherwise `packCount` stays 0 and the entry loop never
runs — the source has no failure path for a missing magic. -/
def decodePack (inflate : List Nat → Option (List Nat × Nat)) (store : Store)
    (byteArray : List Nat) : Option Store :=
  let idx0 := if byteArray.take 8 = strBytes "0008NAK\n" then 8 else 0
  if (byteArray.drop idx0).take 4 = strBytes "PACK" then
    let packCount := jsByte byteArray (idx0 + 8) * 16777216
      + jsByte byteArray (idx0 + 9) * 65536
      + jsByte byteArray (idx0 + 10) * 256 + jsByte byteArray (idx0 + 11)
    packEntriesGo inflate byteArray packCount (idx0 + 12) store
  else packEntriesGo inflate byteArray 0 idx0 store

/- ### Ref discovery: HEAD persistence -/

/-- JavaScript `c.startsWith(t)` on the ASCII strings involved here,
modelled on the character lists. -/
def strStartsWith (c t : String) : Bool := t.data.isPrefixOf c.data

/-- JavaScript `s.slice(n)` (n ≥ 0) on the ASCII strings involved here,
modelled on the character lists. -/
def strDrop (s : String) (n : Nat) : String := ⟨s.data.drop n⟩

/-- HEAD persistence for the discovery line whose ref name is `HEAD`
(main.ts lines 215-231): find the first capability starting with
`"symref="`, write `"ref: "` followed by that capability's characters from
index 12 on (`symref.slice(12)`) and a newline; with no such capability,
write the advertised hash and a newline. -/
def headFileContent (hash : String) (capList : List String) : String :=
  match capList.find? (fun c => strStartsWith c "symref=") with
  | some symref => "ref: " ++ strDrop symref 12 ++ "\n"
  | none => hash ++ "\n"

/-- A length-prefixed toy compressor for concrete evaluations: the first
byte gives the payload length, `bytesRead` is that length plus one. -/
def inflateLP (l : List Nat) : Option (List Nat × Nat) :=
  match l with
  | [] => none
  | n :: rest => if n ≤ rest.length then some (rest.take n, n + 1) else none

/-- The copy-instruction field decode as the spec describes it: for each of
the low 7 bits of the instruction byte that is set, in ascending bit order,
the next stream byte is the corresponding little-endian byte of the offset
(bits 0-3) or the size (bits 4-6); an unset bit leaves that field byte zero
and consumes no stream byte.  Written from the spec's words, for the
refinement theorems; returns offset, size and bytes consumed. -/
def specCopyFieldsGo (byte0 : Nat) : List Nat → List Nat → Nat × Nat × Nat
  | [], _ => (0, 0, 0)
  | i :: is, stream =>
    if byte0.testBit i then
      let r := specCopyFieldsGo byte0 is stream.tail
      if i < 4 then (stream.headD 0 * 256 ^ i + r.1, r.2.1, r.2.2 + 1)
      else (r.1, stream.headD 0 * 256 ^ (i - 4) + r.2.1, r.2.2 + 1)
    else specCopyFieldsGo byte0 is stream

/-- Spec-side copy fields over the seven low bits. -/
def specCopyFields (byte0 : Nat) (stream : List Nat) : Nat × Nat × Nat :=
  specCopyFieldsGo byte0 [0, 1, 2, 3, 4, 5, 6] stream

/- ## Theorems -/

/- ### Supporting lemmas for the header round-trip -/

theorem decDigitsGo_lt (fuel n : Nat) : ∀ d ∈ decDigitsGo fuel n, d < 10 := by
  induction fuel generalizing n with
  | zero => intro d hd; simp [decDigitsGo] at hd
  | succ fuel ih =>
    intro d hd
    simp only [decDigitsGo] at hd
    by_cases h : n < 10
    · simp [h] at hd; omega
    · simp [h] at hd
      rcases hd with h1 | h2
      · subst h1; exact Nat.mod_lt _ (by omega)
      · exact ih _ _ h2

theorem decBytes_mem (n : Nat) : ∀ b ∈ decBytes n, 48 ≤ b ∧ b ≤ 57 := by
  intro b hb
  simp only [decBytes, List.mem_map, List.mem_reverse] at hb
  obtain ⟨d, hd, rfl⟩ := hb
  have := decDigitsGo_lt _ _ d hd
  omega

theorem findNull_append (xs ys : List Nat) (hx : ∀ b ∈ xs, b ≠ 0) :
    findNull (xs ++ 0 :: ys) = some xs.length := by
  induction xs with
  | nil => simp [findNull]
  | cons a rest ih =>
    have ha : a ≠ 0 := hx a (by simp)
    simp only [List.cons_append, findNull, List.append_eq]
    rw [if_neg ha, ih (fun b hb => hx b (by simp [hb]))]
    simp

theorem takeUntilSpace_append (xs ys : List Nat) (hx : ∀ b ∈ xs, b ≠ 32) :
    takeUntilSpace (xs ++ 32 :: ys) = xs := by
  induction xs with
  | nil => simp [takeUntilSpace]
  | cons a rest ih =>
    have ha : a ≠ 32 := hx a (by simp)
    simp only [List.cons_append, takeUntilSpace, List.append_eq]
    rw [if_neg ha, ih (fun b hb => hx b (by simp [hb]))]

theorem bytesToStr_strBytes (s : String) : bytesToStr (strBytes s) = s := by
  simp only [bytesToStr, strBytes, List.map_map]
  have h : (Char.ofNat ∘ Char.toNat) = id := funext fun c => Char.ofNat_toNat c
  rw [h, List.map_id]

/-- The kind tokens contain neither NUL nor space. -/
theorem kindName_bytes_ok (k : Kind) : ∀ b ∈ strBytes (kindName k), b ≠ 0 ∧ b ≠ 32 := by
  cases k <;> decide

/-- The header bytes (everything before the NUL) of `mkContent`. -/
theorem mkContent_header_ne_zero (k : Kind) (p : List Nat) :
    ∀ b ∈ strBytes (kindName k) ++ 32 :: decBytes p.length, b ≠ 0 := by
  intro b hb
  rcases List.mem_append.mp hb with h | h
  · exact (kindName_bytes_ok k b h).1
  · rcases List.mem_cons.mp h with h | h
    · omega
    · have := decBytes_mem _ b h; omega

theorem mkContent_eq (k : Kind) (p : List Nat) :
    mkContent (kindName k) p
      = (strBytes (kindName k) ++ 32 :: decBytes p.length) ++ 0 :: p := by
  simp [mkContent]

/-- The NUL scan of main.ts lines 384-387 lands exactly on the header's NUL. -/
theorem mkContent_findNull (k : Kind) (p : List Nat) :
    findNull (mkContent (kindName k) p)
      = some (strBytes (kindName k) ++ 32 :: decBytes p.length).length := by
  rw [mkContent_eq, findNull_append _ _ (mkContent_header_ne_zero k p)]

/-- The token before the header's space is the kind name. -/
theorem mkContent_kindTok (k : Kind) (p : List Nat) :
    bytesToStr (takeUntilSpace ((mkContent (kindName k) p).take
      (strBytes (kindName k) ++ 32 :: decBytes p.length).length)) = kindName k := by
  rw [mkContent_eq, List.take_left,
    takeUntilSpace_append _ _ (fun b hb => (kindName_bytes_ok k b hb).2),
    bytesToStr_strBytes]

/-- Dropping the header and its NUL leaves the payload. -/
theorem mkContent_dropHeader (k : Kind) (p : List Nat) :
    (mkContent (kindName k) p).drop
      ((strBytes (kindName k) ++ 32 :: decBytes p.length).length + 1) = p := by
  rw [mkContent_eq]
  have h2 : (strBytes (kindName k) ++ 32 :: decBytes p.length) ++ 0 :: p
      = ((strBytes (kindName k) ++ 32 :: decBytes p.length) ++ [0]) ++ p := by
    simp
  rw [h2, List.drop_left' (by simp; omega)]

theorem parseObject_mkContent (k : Kind) (p : List Nat) :
    parseObject (mkContent (kindName k) p) = some (kindName k, p) := by
  rw [parseObject, mkContent_findNull]
  simp only [mkContent_kindTok, mkContent_dropHeader]


/- ### Facts about the JavaScript 32-bit operators and byte access -/

set_option maxRecDepth 20000 in
theorem and127_eq_mod : ∀ b < 256, b &&& 127 = b % 128 := by decide

set_option maxRecDepth 20000 in
theorem and15_eq_mod : ∀ b < 256, b &&& 15 = b % 16 := by decide

set_option maxRecDepth 20000 in
theorem shr7_and1 : ∀ b < 256, ((128 ≤ b → (b >>> 7) &&& 1 = 1)
    ∧ (b < 128 → (b >>> 7) &&& 1 = 0)) := by decide

theorem toInt32_of_lt (x : Int) (h0 : 0 ≤ x) (h1 : x < 2147483648) : toInt32 x = x := by
  unfold toInt32
  rw [Int.emod_eq_of_lt (by omega) (by omega)]
  omega

theorem jsShl_exact (a m : Nat) (h : a * 2 ^ m < 2147483648) :
    jsShl (a : Int) (m : Int) = (a * 2 ^ m : Nat) := by
  rcases Nat.eq_zero_or_pos a with rfl | ha
  · simp [jsShl, toInt32]
  · have ha31 : a < 2147483648 := by
      have : a ≤ a * 2 ^ m := Nat.le_mul_of_pos_right a (Nat.pow_pos (by norm_num))
      omega
    have hm : m ≤ 30 := by
      by_contra hmc
      push_neg at hmc
      have h31 : (2147483648 : Nat) ≤ 2 ^ m := by
        calc (2147483648 : Nat) = 2 ^ 31 := by norm_num
        _ ≤ 2 ^ m := Nat.pow_le_pow_right (by norm_num) (by omega)
      have h2 : 2 ^ m ≤ a * 2 ^ m := Nat.le_mul_of_pos_left _ ha
      omega
    have hsh : (((m : Int) % 4294967296).toNat) % 32 = m := by
      rw [Int.emod_eq_of_lt (by exact_mod_cast Nat.zero_le m) (by exact_mod_cast (by omega : m < 4294967296))]
      rw [Int.toNat_ofNat]
      omega
    unfold jsShl
    rw [hsh, toInt32_of_lt (a : Int) (by exact_mod_cast Nat.zero_le a) (by exact_mod_cast ha31)]
    rw [show ((a : Int) * 2 ^ m) = ((a * 2 ^ m : Nat) : Int) by push_cast; ring]
    rw [toInt32_of_lt _ (by exact_mod_cast Nat.zero_le _) (by exact_mod_cast h)]

theorem jsByte_eq_headD_drop (bytes : List Nat) (i : Nat) :
    jsByte bytes i = (bytes.drop i).headD 0 := by
  induction bytes generalizing i with
  | nil => simp [jsByte, List.getD]
  | cons a l ih =>
    cases i with
    | zero => simp [jsByte, List.getD]
    | succ n =>
      have h := ih n
      simp only [jsByte, List.getD_cons_succ] at h ⊢
      rw [h]
      rfl

theorem drop_succ_of_drop {bytes l : List Nat} {a : Nat} (i : Nat)
    (h : bytes.drop i = a :: l) : bytes.drop (i + 1) = l := by
  have h2 : bytes.drop (i + 1) = (bytes.drop i).drop 1 := by
    rw [List.drop_drop, Nat.add_comm]
  rw [h2, h]
  rfl

/- ### C7: object write/read round-trip -/

/-- C7: for every payload `p` and kind `k`, reading back the object produced
by `write(k, p)` returns exactly the pair `(k, p)`: the stored bytes
decompress to the header `"<k> <len(p)>\0"` followed by `p` unchanged. -/
theorem read_write_roundtrip (k : Kind) (p : List Nat)
    (deflate inflate : List Nat → List Nat)
    (hzlib : ∀ c, inflate (deflate c) = c) :
    readObjectBytes inflate (writeObjectBytes deflate k p) = some (kindName k, p)
    ∧ inflate (writeObjectBytes deflate k p)
      = strBytes (kindName k) ++ [32] ++ decBytes p.length ++ [0] ++ p := by
  constructor
  · rw [readObjectBytes, writeObjectBytes, hzlib, parseObject_mkContent]
  · rw [writeObjectBytes, hzlib, mkContent]

theorem read_write_roundtrip_witness :
    readObjectBytes id (writeObjectBytes id .blob [104, 105]) = some ("blob", [104, 105]) :=
  (read_write_roundtrip .blob [104, 105] id id (fun _ => rfl)).1

/- ### C8: content hash and sharded path -/

set_option maxRecDepth 20000 in
/-- C8 counterexample: writing a blob with payload `"hello\n"` yields the
hash `ce0136...`, not `e96504...` as claimed; `e96504...` is the digest of
the payload `"Hello\n"`. -/
theorem hello_blob_hash_counterexample :
    (hashBuffer (strBytes "hello\n") "blob").1
        = "ce013625030ba8dba906f756967f9e9ca394464a"
    ∧ (hashBuffer (strBytes "hello\n") "blob").1
        ≠ "e965047ad7c57865823c7d992b1d046ea66edf78" := by
  constructor <;> decide

set_option maxRecDepth 20000 in
/-- C8 amended: the object's hash is the hex SHA-1 of
`"<kind> <len(p)>\0" ++ p`; the object is written deflate-compressed at the
sharded path `objects/<first 2 hex chars>/<remaining 38 hex chars>`; and
writing a blob with payload `"hello\n"` yields
`ce013625030ba8dba906f756967f9e9ca394464a` (the claimed digest
`e96504...edf78` is that of payload `"Hello\n"`). -/
theorem object_hash_and_path (k : Kind) (p : List Nat) (dir : Option String)
    (h : String) (deflate : List Nat → List Nat) :
    (hashBuffer p (kindName k)).1
      = sha1Hex (strBytes (kindName k) ++ [32] ++ decBytes p.length ++ [0] ++ p)
    ∧ writeObjectBytes deflate k p = deflate (mkContent (kindName k) p)
    ∧ objectPath dir h
      = (match dir with | some d => d ++ "/" | none => "")
        ++ ".git/objects/" ++ h.take 2 ++ "/" ++ h.drop 2
    ∧ (hashBuffer (strBytes "hello\n") "blob").1
      = "ce013625030ba8dba906f756967f9e9ca394464a"
    ∧ (hashBuffer (strBytes "Hello\n") "blob").1
      = "e965047ad7c57865823c7d992b1d046ea66edf78" := by
  refine ⟨?_, rfl, rfl, by decide, by decide⟩
  rw [hashBuffer, mkContent]

/- ### C2: the two variable-length integer readers -/

theorem pow128_eq (n : Nat) : (128 : Nat) ^ n = 2 ^ (7 * n) := by
  rw [show (128 : Nat) = 2 ^ 7 by norm_num, ← Nat.pow_mul]

theorem deltaVarintGo_char (cs : List Nat) :
    ∀ (data rest : List Nat) (last dIdx n value fuel : Nat),
    (∀ c ∈ cs, 128 ≤ c ∧ c < 256) → last < 128 →
    data.drop dIdx = cs ++ last :: rest →
    cs.length + 1 ≤ fuel →
    deltaVarintGo data fuel dIdx n value
      = (value + specDeltaContrib (cs ++ [last]) n, dIdx + cs.length) := by
  induction cs with
  | nil =>
    intro data rest last dIdx n value fuel _ hlast hdrop hfuel
    obtain ⟨f, rfl⟩ : ∃ f, fuel = f + 1 := ⟨fuel - 1, by omega⟩
    have hb : jsByte data dIdx = last := by
      rw [jsByte_eq_headD_drop, hdrop]; rfl
    simp only [deltaVarintGo, hb]
    rw [(shr7_and1 last (by omega)).2 hlast, and127_eq_mod last (by omega)]
    simp [specDeltaContrib, pow128_eq]
  | cons c cs ih =>
    intro data rest last dIdx n value fuel hcs hlast hdrop hfuel
    obtain ⟨f, rfl⟩ : ∃ f, fuel = f + 1 := ⟨fuel - 1, by omega⟩
    have hc := hcs c (by simp)
    have hb : jsByte data dIdx = c := by
      rw [jsByte_eq_headD_drop, hdrop]; rfl
    simp only [deltaVarintGo, hb]
    rw [(shr7_and1 c hc.2).1 hc.1, and127_eq_mod c hc.2]
    have hdrop' : data.drop (dIdx + 1) = cs ++ last :: rest :=
      drop_succ_of_drop dIdx (by rw [hdrop]; rfl)
    rw [if_neg (by omega)]
    rw [ih data rest last (dIdx + 1) (n + 1) _ f
      (fun x hx => hcs x (by simp [hx])) hlast hdrop'
      (by simp only [List.length_cons] at hfuel; omega)]
    have hsplit : specDeltaContrib ((c :: cs) ++ [last]) n
        = c % 128 * 2 ^ (7 * n) + specDeltaContrib (cs ++ [last]) (n + 1) := rfl
    rw [hsplit]
    simp only [Prod.mk.injEq, List.length_cons]
    constructor
    · rw [pow128_eq]; ring
    · omega

theorem deltaVarint_char (data rest cs : List Nat) (last dIdx : Nat)
    (hcs : ∀ c ∈ cs, 128 ≤ c ∧ c < 256) (hlast : last < 128)
    (hdrop : data.drop dIdx = cs ++ last :: rest) :
    deltaVarint data dIdx = (specDeltaContrib (cs ++ [last]) 0, dIdx + cs.length + 1) := by
  have hlen : cs.length + 1 ≤ data.length + 1 := by
    have h := congrArg List.length hdrop
    simp [List.length_drop] at h
    omega
  unfold deltaVarint
  rw [deltaVarintGo_char cs data rest last dIdx 0 0 _ hcs hlast hdrop hlen]
  simp

theorem packSizeGo_char (cont : List Nat) :
    ∀ (bytes rest : List Nat) (last idx n : Nat) (size : Int) (fuel : Nat),
    (∀ c ∈ cont, 128 ≤ c ∧ c < 256) → last < 128 →
    bytes.drop (idx + 1) = cont ++ last :: rest →
    cont.length + 1 ≤ fuel →
    specPackContrib (cont ++ [last]) n < 2147483648 →
    packSizeGo bytes fuel idx (-3 + 7 * (n : Int)) size
      = (size + (specPackContrib (cont ++ [last]) n : Int), idx + 1 + cont.length) := by
  induction cont with
  | nil =>
    intro bytes rest last idx n size fuel _ hlast hdrop hfuel hbnd
    obtain ⟨f, rfl⟩ : ∃ f, fuel = f + 1 := ⟨fuel - 1, by omega⟩
    simp only [List.nil_append] at hdrop hbnd ⊢
    have hb : jsByte bytes (idx + 1) = last := by
      rw [jsByte_eq_headD_drop, hdrop]; rfl
    simp only [packSizeGo, hb]
    rw [(shr7_and1 last (by omega)).2 hlast, and127_eq_mod last (by omega)]
    have hspec : specPackContrib [last] n = last % 128 * 2 ^ (4 + 7 * n) := by
      simp [specPackContrib]
    have hmv : (-3 + 7 * (n : Int)) + 7 = ((4 + 7 * n : Nat) : Int) := by push_cast; ring
    rw [hmv, jsShl_exact _ _ (by rw [hspec] at hbnd; omega)]
    simp [hspec]
  | cons c cs ih =>
    intro bytes rest last idx n size fuel hcs hlast hdrop hfuel hbnd
    obtain ⟨f, rfl⟩ : ∃ f, fuel = f + 1 := ⟨fuel - 1, by omega⟩
    have hc := hcs c (by simp)
    have hb : jsByte bytes (idx + 1) = c := by
      rw [jsByte_eq_headD_drop, hdrop]; rfl
    simp only [packSizeGo, hb]
    rw [(shr7_and1 c hc.2).1 hc.1, and127_eq_mod c hc.2]
    have hsplit : specPackContrib ((c :: cs) ++ [last]) n
        = c % 128 * 2 ^ (4 + 7 * n) + specPackContrib (cs ++ [last]) (n + 1) := by
      simp [specPackContrib]
    have hmv : (-3 + 7 * (n : Int)) + 7 = ((4 + 7 * n : Nat) : Int) := by push_cast; ring
    rw [if_neg (by omega), hmv, jsShl_exact _ _ (by rw [hsplit] at hbnd; omega)]
    have hdrop' : bytes.drop (idx + 1 + 1) = cs ++ last :: rest :=
      drop_succ_of_drop (idx + 1) (by rw [hdrop]; rfl)
    have hmv2 : ((4 + 7 * n : Nat) : Int) = -3 + 7 * ((n + 1 : Nat) : Int) := by
      push_cast; ring
    rw [hmv2, ih bytes rest last (idx + 1) (n + 1) _ f
      (fun x hx => hcs x (by simp [hx])) hlast hdrop'
      (by simp only [List.length_cons] at hfuel; omega)
      (by rw [hsplit] at hbnd; omega)]
    rw [hsplit]
    simp only [Prod.mk.injEq, List.length_cons]
    constructor
    · push_cast; ring
    · omega

set_option maxRecDepth 20000 in
/-- C2 counterexample: on the pack-entry header bytes
`[143, 128, 128, 128, 64]` the continuation flags terminate (three
continuation bytes 128, then 64 with bit 7 clear), the scheme of the claim
gives `15 + 64·2^25 = 2147483663`, but the code decodes `-2147483633`:
JavaScript's 32-bit `<<` turns the fourth continuation byte's contribution
`64 << 25` into `-2^31`. -/
theorem packEntryHeader_int32_counterexample :
    (packEntryHeader [143, 128, 128, 128, 64] 0).2.1 = -2147483633
    ∧ (specPackSize 143 [128, 128, 128, 64] : Int) = 2147483663
    ∧ ((-2147483633 : Int) ≠ 2147483663) := by
  refine ⟨by decide, by decide, by decide⟩

/-- C2 amended: both readers decode per their schemes and advance the cursor
by exactly the bytes consumed, for every terminating input within machine
range — for the pack-entry reader, the total continuation contribution must
stay below `2^31` (beyond that the 32-bit `<<` corrupts it, see the
counterexample), and for the delta reader the decoded value below `2^53`
(the exactness range of the IEEE-double accumulation the source uses).
Part 1: a first byte with bit 7 clear yields its low 4 bits and one byte
consumed.  Part 2: with continuation bytes, the n-th contributes its low
7 bits at shift `4+7*(n-1)`.  Part 3: the delta reader: the first byte's low
7 bits, the n-th continuation byte at shift `7*n` (`specDeltaContrib l 0`
of the whole byte run `l`), cursor advanced by the bytes consumed.
Part 4 ties that to the first-byte/continuation phrasing. -/
theorem varint_readers_spec :
    (∀ (bytes : List Nat) (idx b0 : Nat), jsByte bytes idx = b0 → b0 < 128 →
      packEntryHeader bytes idx = ((b0 >>> 4) &&& 7, ((b0 % 16 : Nat) : Int), idx + 1))
    ∧ (∀ (pre cont rest : List Nat) (b0 last : Nat), 128 ≤ b0 → b0 < 256 →
        (∀ c ∈ cont, 128 ≤ c ∧ c < 256) → last < 128 →
        specPackContrib (cont ++ [last]) 0 < 2147483648 →
        packEntryHeader (pre ++ b0 :: (cont ++ last :: rest)) pre.length
          = ((b0 >>> 4) &&& 7, (specPackSize b0 (cont ++ [last]) : Int),
             pre.length + 2 + cont.length))
    ∧ (∀ (data rest cs : List Nat) (last dIdx : Nat),
        (∀ c ∈ cs, 128 ≤ c ∧ c < 256) → last < 128 →
        data.drop dIdx = cs ++ last :: rest →
        specDeltaContrib (cs ++ [last]) 0 < 9007199254740992 →
        deltaVarint data dIdx = (specDeltaContrib (cs ++ [last]) 0, dIdx + cs.length + 1))
    ∧ (∀ (b0 : Nat) (l : List Nat), specDeltaContrib (b0 :: l) 0 = specDeltaValue b0 l) := by
  refine ⟨?_, ?_, ?_, ?_⟩
  · intro bytes idx b0 hb hlt
    simp only [packEntryHeader, hb]
    rw [(shr7_and1 b0 (by omega)).2 hlt, and15_eq_mod b0 (by omega)]
    simp
  · intro pre cont rest b0 last hb0 hb0' hcs hlast hbnd
    have hb : jsByte (pre ++ b0 :: (cont ++ last :: rest)) pre.length = b0 := by
      rw [jsByte_eq_headD_drop, List.drop_left]; rfl
    simp only [packEntryHeader, hb]
    rw [(shr7_and1 b0 hb0').1 hb0, and15_eq_mod b0 hb0']
    have hdrop : (pre ++ b0 :: (cont ++ last :: rest)).drop (pre.length + 1)
        = cont ++ last :: rest :=
      drop_succ_of_drop pre.length (by rw [List.drop_left])
    have hfuel : cont.length + 1 ≤ (pre ++ b0 :: (cont ++ last :: rest)).length + 1 := by
      simp [List.length_append]; omega
    rw [if_pos rfl]
    rw [show (-3 : Int) = -3 + 7 * ((0 : Nat) : Int) by norm_num]
    rw [packSizeGo_char cont _ rest last pre.length 0 _ _ hcs hlast hdrop hfuel hbnd]
    simp only [specPackSize, Prod.mk.injEq, true_and]
    constructor
    · push_cast; ring
    · omega
  · intro data rest cs last dIdx hcs hlast hdrop _
    exact deltaVarint_char data rest cs last dIdx hcs hlast hdrop
  · intro b0 l
    simp [specDeltaContrib, specDeltaValue]

theorem varint_readers_spec_witness :
    packEntryHeader [147, 133, 1] 0 = (1, (2131 : Int), 3)
    ∧ deltaVarint [133, 3] 0 = (389, 2) := by
  constructor
  · have h := varint_readers_spec.2.1 [] [133] [] 147 1
      (by norm_num) (by norm_num) (by decide) (by norm_num) (by decide)
    simpa using h
  · have h := varint_readers_spec.2.2.1 [133, 3] [] [133] 3 0
      (by decide) (by norm_num) (by decide) (by decide)
    simpa using h

/- ### C1/C10: the delta instruction loop -/

theorem get_eq_jsByte (data : List Nat) (dIdx : Nat) (h : dIdx < data.length) :
    data.get ⟨dIdx, h⟩ = jsByte data dIdx := by
  induction data generalizing dIdx with
  | nil => simp at h
  | cons a l ih =>
    cases dIdx with
    | zero => rfl
    | succ n => exact ih n (by simpa using h)

theorem testBit_shr (byte0 i : Nat) :
    (byte0 >>> i) &&& 1 = if byte0.testBit i then 1 else 0 := by
  rw [Nat.and_one_is_mod, Nat.shiftRight_eq_div_pow, Nat.testBit_to_div_mod]
  by_cases h : byte0 / 2 ^ i % 2 = 1
  · simp [h]
  · simp [h]
    omega

/-- The source's cursor-based field loop refines the spec's description of
copy field decoding, whenever the selected stream bytes all exist. -/
theorem copyFieldsGo_spec (is : List Nat) :
    ∀ (data : List Nat) (byte0 dIdx off sz : Nat),
    dIdx + (specCopyFieldsGo byte0 is (data.drop dIdx)).2.2 ≤ data.length →
    copyFieldsGo data byte0 is dIdx off sz
      = some (off + (specCopyFieldsGo byte0 is (data.drop dIdx)).1,
              sz + (specCopyFieldsGo byte0 is (data.drop dIdx)).2.1,
              dIdx + (specCopyFieldsGo byte0 is (data.drop dIdx)).2.2) := by
  induction is with
  | nil =>
    intro data byte0 dIdx off sz _
    simp [copyFieldsGo, specCopyFieldsGo]
  | cons i is ih =>
    intro data byte0 dIdx off sz hb
    have htail : (data.drop dIdx).tail = data.drop (dIdx + 1) := by
      rw [List.tail_drop]
    by_cases hbit : byte0.testBit i
    · have hg : (byte0 >>> i) &&& 1 = 1 := by rw [testBit_shr, if_pos hbit]
      simp only [specCopyFieldsGo, hbit, if_true, htail] at hb ⊢
      by_cases h4 : i < 4
      · simp only [h4, if_true] at hb ⊢
        have hlt : dIdx < data.length := by omega
        simp only [copyFieldsGo, hg]
        rw [if_neg (by omega), dif_pos hlt, if_pos h4,
          ih data byte0 (dIdx + 1) _ _ (by omega)]
        rw [get_eq_jsByte data dIdx hlt, jsByte_eq_headD_drop]
        refine congrArg some ?_
        simp only [Prod.mk.injEq]
        refine ⟨by ring, trivial, by omega⟩
      · simp only [h4, if_false] at hb ⊢
        have hlt : dIdx < data.length := by omega
        simp only [copyFieldsGo, hg]
        rw [if_neg (by omega), dif_pos hlt, if_neg h4,
          ih data byte0 (dIdx + 1) _ _ (by omega)]
        rw [get_eq_jsByte data dIdx hlt, jsByte_eq_headD_drop]
        refine congrArg some ?_
        simp only [Prod.mk.injEq]
        refine ⟨trivial, by ring, by omega⟩
    · have hg : (byte0 >>> i) &&& 1 = 0 := by rw [testBit_shr, if_neg hbit]
      simp only [specCopyFieldsGo, hbit, if_false] at hb ⊢
      simp only [copyFieldsGo, hg, if_pos rfl]
      exact ih data byte0 dIdx off sz hb

set_option maxRecDepth 20000 in
/-- C1 counterexample: the insert instruction byte 2 promises two literal
bytes, but only one stream byte follows; the source's `slice` clamps, so one
byte is appended, not two as the claim states. -/
theorem insert_truncated_counterexample :
    deltaInstrsGo [2, 97] [] 3 0 [] = some [97]
    ∧ ([97] : List Nat).length ≠ 2 := by
  refine ⟨by decide, by decide⟩

/-- One step of the instruction loop, characterized against the spec-side
field decode; shared support for the instruction-level theorems. -/
theorem deltaStep_char (data base buffer : List Nat) (fuel dIdx b : Nat)
    (hb : jsByte data dIdx = b) (hin : dIdx < data.length) (hb256 : b < 256) :
    (128 ≤ b →
      dIdx + 1 + (specCopyFields b (data.drop (dIdx + 1))).2.2 ≤ data.length →
      deltaInstrsGo data base (fuel + 1) dIdx buffer
        = deltaInstrsGo data base fuel
            (dIdx + 1 + (specCopyFields b (data.drop (dIdx + 1))).2.2)
            (buffer ++ (base.drop (specCopyFields b (data.drop (dIdx + 1))).1).take
              (specCopyFields b (data.drop (dIdx + 1))).2.1))
    ∧ (b < 128 →
      deltaInstrsGo data base (fuel + 1) dIdx buffer
        = deltaInstrsGo data base fuel (dIdx + 1 + b)
            (buffer ++ (data.drop (dIdx + 1)).take b)) := by
  constructor
  · intro hhi henough
    simp only [deltaInstrsGo, if_pos hin, hb]
    rw [(shr7_and1 b hb256).1 hhi, if_pos rfl]
    rw [copyFieldsGo_spec [0, 1, 2, 3, 4, 5, 6] data b (dIdx + 1) 0 0
      (by exact henough)]
    simp only [Nat.zero_add, specCopyFields]
  · intro hlo
    simp only [deltaInstrsGo, if_pos hin, hb]
    rw [(shr7_and1 b hb256).2 hlo, if_neg (by omega)]

/-- C1 amended: each instruction byte is processed as the claim describes,
with two qualifications visible in the code: appended copy and insert runs
are clamped at the end of the base payload and of the stream respectively
(`Buffer.copyBytesFrom` / `slice` semantics), and a copy instruction whose
selected field bytes run past the stream end aborts the reconstruction.
Copy (high bit 1): the set low bits consume one stream byte each, in
ascending bit order, as the little-endian bytes of the 4-byte offset
(bits 0-3) and 3-byte size (bits 4-6) — `specCopyFields` — after which the
base-payload run at `offset` of length `size` (clamped) is appended.
Insert (high bit 0): the byte's low 7 bits give the literal length, and
that run of following stream bytes (clamped) is appended. -/
theorem deltaInstr_step (data base buffer : List Nat) (fuel dIdx b : Nat)
    (hb : jsByte data dIdx = b) (hin : dIdx < data.length) (hb256 : b < 256) :
    (128 ≤ b →
      dIdx + 1 + (specCopyFields b (data.drop (dIdx + 1))).2.2 ≤ data.length →
      deltaInstrsGo data base (fuel + 1) dIdx buffer
        = deltaInstrsGo data base fuel
            (dIdx + 1 + (specCopyFields b (data.drop (dIdx + 1))).2.2)
            (buffer ++ (base.drop (specCopyFields b (data.drop (dIdx + 1))).1).take
              (specCopyFields b (data.drop (dIdx + 1))).2.1))
    ∧ (b < 128 →
      deltaInstrsGo data base (fuel + 1) dIdx buffer
        = deltaInstrsGo data base fuel (dIdx + 1 + b)
            (buffer ++ (data.drop (dIdx + 1)).take b)) :=
  deltaStep_char data base buffer fuel dIdx b hb hin hb256

theorem deltaInstr_step_witness :
    deltaInstrsGo [145, 1, 2] [10, 11, 12, 13] 2 0 [] = some [11, 12] := by
  have h := (deltaInstr_step [145, 1, 2] [10, 11, 12, 13] [] 1 0 145
    (by decide) (by decide) (by decide)).1 (by decide) (by decide)
  rw [h]
  decide

/-- The size field of a copy instruction whose bits 4-6 are unset is zero,
and only the set offset bits consume stream bytes. -/
theorem specCopyFields_no_size (b : Nat) (stream : List Nat)
    (h4 : b.testBit 4 = false) (h5 : b.testBit 5 = false) (h6 : b.testBit 6 = false) :
    (specCopyFields b stream).2.1 = 0
    ∧ (specCopyFields b stream).2.2
      = ((List.range 4).filter (fun i => b.testBit i)).length := by
  cases hb0 : b.testBit 0 <;> cases hb1 : b.testBit 1 <;>
    cases hb2 : b.testBit 2 <;> cases hb3 : b.testBit 3 <;>
    simp [specCopyFields, specCopyFieldsGo, hb0, hb1, hb2, hb3, h4, h5, h6,
      List.range, List.range.loop, List.filter]

/-- C10: a copy instruction whose three size bits (4-6) are all unset
appends zero bytes of the base payload — the size defaults to 0, there is no
full-window special value — and consumes exactly the stream bytes selected
by its set offset bits. -/
theorem copy_zero_size (data base buffer : List Nat) (fuel dIdx b : Nat)
    (hb : jsByte data dIdx = b) (hin : dIdx < data.length)
    (h1 : 128 ≤ b) (h2 : b < 256)
    (h4 : b.testBit 4 = false) (h5 : b.testBit 5 = false) (h6 : b.testBit 6 = false)
    (henough : dIdx + 1 + ((List.range 4).filter (fun i => b.testBit i)).length
      ≤ data.length) :
    deltaInstrsGo data base (fuel + 1) dIdx buffer
      = deltaInstrsGo data base fuel
          (dIdx + 1 + ((List.range 4).filter (fun i => b.testBit i)).length) buffer := by
  obtain ⟨hsz, hcnt⟩ := specCopyFields_no_size b (data.drop (dIdx + 1)) h4 h5 h6
  have h := (deltaStep_char data base buffer fuel dIdx b hb hin h2).1 h1
    (by rw [hcnt]; exact henough)
  rw [h, hsz, hcnt]
  simp

theorem copy_zero_size_witness :
    deltaInstrsGo [129, 5] [1, 2, 3] 2 0 [] = some [] := by
  have h := copy_zero_size [129, 5] [1, 2, 3] [] 1 0 129
    (by decide) (by decide) (by decide) (by decide) (by decide) (by decide)
    (by decide) (by decide)
  rw [h]
  decide

/- ### C3: no CorruptDelta validation -/

set_option maxRecDepth 20000 in
/-- C3: the case-7 path performs no CorruptDelta check: the decoded
`sourceLength` and `targetLength` are only logged.  With base payload `"a"`
(length 1) and the delta `[5, 5, 1, 98]` declaring sourceLength 5 and
targetLength 5 whose single instruction inserts one byte, reconstruction
succeeds with the 1-byte output `"b"`, and the full case-7 path stores the
object — no failure on either mismatch. -/
theorem no_corrupt_delta_checks :
    refDeltaLengths [5, 5, 1, 98] = (5, 5, 2)
    ∧ ([97] : List Nat).length ≠ 5
    ∧ ([98] : List Nat).length ≠ 5
    ∧ refDeltaApply [5, 5, 1, 98] [97] = some [98]
    ∧ refDeltaEntry [("aa", mkContent "blob" [97])] "aa" [5, 5, 1, 98]
      = some (storeWrite [("aa", mkContent "blob" [97])]
          (hashBuffer [98] "blob").1 (hashBuffer [98] "blob").2) := by
  refine ⟨by decide, by decide, by decide, by decide, by decide⟩

/- ### C4: ref-delta entries inherit the base object's kind -/

/-- C4: a ref-delta entry is stored under the kind that the base object
resolved from the store by `reference` declares in its header: when the
store holds content with kind token `kindName k` and payload `p`, and
delta application yields `out`, case 7 writes exactly
`hashBuffer out (kindName k)`.  The pack entry's own framing contributes
nothing here: the framing type merely routed execution to case 7. -/
theorem refDelta_stores_base_kind (store : Store) (reference : String) (k : Kind)
    (p data out : List Nat)
    (hread : storeRead store reference = some (mkContent (kindName k) p))
    (happly : refDeltaApply data p = some out) :
    refDeltaEntry store reference data
      = some (storeWrite store (hashBuffer out (kindName k)).1
          (hashBuffer out (kindName k)).2) := by
  simp only [refDeltaEntry, hread, mkContent_findNull, mkContent_kindTok,
    mkContent_dropHeader, happly]

theorem refDelta_stores_base_kind_witness :
    refDeltaEntry [("aa", mkContent "tree" [1, 2])] "aa" [2, 1, 1, 99]
      = some (storeWrite [("aa", mkContent "tree" [1, 2])]
          (hashBuffer [99] "tree").1 (hashBuffer [99] "tree").2) :=
  refDelta_stores_base_kind [("aa", mkContent "tree" [1, 2])] "aa" .tree
    [1, 2] [2, 1, 1, 99] [99] (by decide) (by decide)

/- ### C5: tag and offset-delta entries are skipped, not failed -/

set_option maxRecDepth 20000 in
/-- C5: the decoder does not fail with UnsupportedPackEntry on a tag
(kind 4) entry and does not abort: on a 2-entry pack whose first entry is a
tag and whose second a blob, the tag's payload is inflated and discarded,
and the decode continues and succeeds, storing only the blob. -/
theorem tag_entry_skipped :
    decodePack inflateLP []
        (strBytes "PACK" ++ [0, 0, 0, 2, 0, 0, 0, 2, 71, 3, 1, 2, 3, 53, 2, 97, 98])
      = some [("9ae9e86b7bd6cb1472d9373702d8249973da0832", mkContent "blob" [97, 98])] := by
  decide

/- ### C6: pack header handling -/

/-- C6 counterexample: a stream that does not start with "PACK" (nor a NAK
line) makes the decoder return the store unchanged — it succeeds with zero
entries processed instead of failing with ProtocolError. -/
theorem missing_magic_no_error :
    decodePack inflateLP [] [1, 2, 3, 4] = some []
    ∧ (some ([] : Store)) ≠ (none : Option Store) := by
  refine ⟨by decide, by decide⟩

/-- C6 amended: after the optional `"0008NAK\n"` skip, a missing "PACK"
magic leaves `packCount` at 0, so the decoder processes zero entries and
returns the store unchanged — no ProtocolError path exists; when the magic
is present, the entry count is the big-endian integer of the 4 bytes at
offsets 8-11 past the magic's start and the decoder runs exactly that many
iterations of `packEntryStep`, one per entry. -/
theorem decodePack_header_spec (inflate : List Nat → Option (List Nat × Nat))
    (store : Store) (byteArray : List Nat) (idx0 : Nat)
    (hidx : idx0 = if byteArray.take 8 = strBytes "0008NAK\n" then 8 else 0) :
    ((byteArray.drop idx0).take 4 ≠ strBytes "PACK" →
      decodePack inflate store byteArray = some store)
    ∧ ((byteArray.drop idx0).take 4 = strBytes "PACK" →
      decodePack inflate store byteArray
        = packEntriesGo inflate byteArray
            (jsByte byteArray (idx0 + 8) * 16777216 + jsByte byteArray (idx0 + 9) * 65536
              + jsByte byteArray (idx0 + 10) * 256 + jsByte byteArray (idx0 + 11))
            (idx0 + 12) store)
    ∧ (∀ (count idx : Nat) (st : Store),
        packEntriesGo inflate byteArray (count + 1) idx st
          = match packEntryStep inflate byteArray idx st with
            | none => none
            | some r => packEntriesGo inflate byteArray count r.2 r.1) := by
  subst hidx
  refine ⟨?_, ?_, ?_⟩
  · intro hmagic
    simp only [decodePack, if_neg hmagic]
    rfl
  · intro hmagic
    simp only [decodePack, if_pos hmagic]
  · intro count idx st
    cases h : packEntryStep inflate byteArray idx st with
    | none => simp [packEntriesGo, h]
    | some r =>
      cases r
      simp [packEntriesGo, h]

theorem decodePack_header_spec_witness :
    decodePack inflateLP [] [1, 2, 3, 4] = some []
    ∧ decodePack inflateLP [] (strBytes "PACK" ++ [0, 0, 0, 0, 0, 0, 0, 0]) = some [] := by
  constructor
  · exact (decodePack_header_spec inflateLP [] [1, 2, 3, 4] 0 (by decide)).1 (by decide)
  · have h := (decodePack_header_spec inflateLP []
      (strBytes "PACK" ++ [0, 0, 0, 0, 0, 0, 0, 0]) 0 (by decide)).2.1 (by decide)
    rw [h]
    decide

/- ### C9: HEAD persistence during ref discovery -/

/-- C9 counterexample: for the capability `"symref=X:refs/heads/dev"` —
whose symbolic target is `refs/heads/dev` — the code's unconditional
`symref.slice(12)` writes `"ref: s/heads/dev\n"`, not
`"ref: refs/heads/dev\n"`: the offset 12 hard-codes the length of
`"symref=HEAD:"`. -/
theorem head_symref_slice_counterexample :
    headFileContent "abc" ["symref=X:refs/heads/dev"] = "ref: s/heads/dev\n"
    ∧ "ref: s/heads/dev\n" ≠ "ref: refs/heads/dev\n" := by
  refine ⟨by decide, by decide⟩

/-- C9 amended: with a symref= capability present, the persisted HEAD
content is `"ref: "` followed by the capability minus its first 12
characters and a newline — which equals `"ref: <target>\n"` exactly when
the first matching capability has the form `"symref=HEAD:<target>"` — and
with no symref= capability it is the advertised hash followed by a
newline. -/
theorem headFileContent_spec (hash target : String) (capList : List String)
    (hfind : capList.find? (fun c => strStartsWith c "symref=")
      = some ("symref=HEAD:" ++ target)) :
    headFileContent hash capList = "ref: " ++ target ++ "\n"
    ∧ (∀ symref : String,
        capList.find? (fun c => strStartsWith c "symref=") = some symref →
        headFileContent hash capList = "ref: " ++ strDrop symref 12 ++ "\n")
    ∧ (∀ (hash2 : String) (capList2 : List String),
        capList2.find? (fun c => strStartsWith c "symref=") = none →
        headFileContent hash2 capList2 = hash2 ++ "\n") := by
  have hdrop : strDrop ("symref=HEAD:" ++ target) 12 = target := by
    cases target with
    | mk data =>
      show String.mk ((("symref=HEAD:" ++ ⟨data⟩ : String)).data.drop 12) = ⟨data⟩
      rw [String.data_append]
      rw [List.drop_left' (by decide)]
  refine ⟨?_, ?_, ?_⟩
  · simp only [headFileContent, hfind, hdrop]
  · intro symref hs
    simp only [headFileContent, hs]
  · intro hash2 capList2 h2
    simp only [headFileContent, h2]

theorem headFileContent_spec_witness :
    headFileContent "abc" ["symref=HEAD:refs/heads/main"] = "ref: refs/heads/main\n" :=
  (headFileContent_spec "abc" "refs/heads/main" ["symref=HEAD:refs/heads/main"]
    (by decide)).1

end GitClient
